import Mathlib

/-!
Verification of the soogo benchmark driver and of the CycleSearch acquisition
layer against the repository's specification.

The repository ships the driver `examples/vlse_benchmark/vlse_bench.py` and the
test-suite `tests/test_acquisition.py`; the CycleSearch implementation itself
is not part of the sources available here, so it is modelled from the
specification document (each such definition is marked in its doc comment).
Numbers are embedded as rationals.  The random elements of the candidate
generator (choice of base point, perturbation offsets, uniform draws) are
passed as explicit streams.  Distances between points are represented by the
squared Euclidean distance: every property proved here depends on the distance
signal only through its ordering and through min-max normalisation over a
two-element survivor set, both of which are invariant under the squaring.
-/

namespace CycleSearch

/-- A point of the search space: one rational coordinate per dimension. -/
abbrev Point := List ℚ

/-- Bounds: one (low, high) pair per dimension. -/
abbrev Bounds := List (ℚ × ℚ)

/-- Valid bounds: low < high in every dimension. -/
def validBounds (bounds : Bounds) : Prop := ∀ b ∈ bounds, b.1 < b.2

instance (bounds : Bounds) : Decidable (validBounds bounds) :=
  inferInstanceAs (Decidable (∀ b ∈ bounds, b.1 < b.2))

/-- A point lies within bounds componentwise and has one coordinate per
dimension. -/
def inBounds (bounds : Bounds) (p : Point) : Prop :=
  p.length = bounds.length ∧ ∀ bp ∈ bounds.zip p, bp.1.1 ≤ bp.2 ∧ bp.2 ≤ bp.1.2

/-- Clip a coordinate into the interval [lo, hi]. -/
def clip (lo hi x : ℚ) : ℚ := max lo (min x hi)

/-- Modelled from the spec: post-processing of one candidate coordinate.
Candidates are "clipped/rounded to respect bounds and integrality": an
integral dimension is rounded to the nearest whole number, and every
dimension is clipped to its bounds. -/
def fixCoord (isIntegral : Bool) (lo hi x : ℚ) : ℚ :=
  if isIntegral then clip lo hi ((round x : ℤ) : ℚ) else clip lo hi x

/-- Modelled from the spec: a perturbation candidate for
`CycleSearch.generate_candidates` — each coordinate of the base point is
independently perturbed by the given offset, then clipped/rounded. -/
def perturbCand (bounds : Bounds) (iflag : List Bool) (base offs : List ℚ) : Point :=
  ((bounds.zip iflag).zip (base.zip offs)).map fun c =>
    fixCoord c.1.2 c.1.1.1 c.1.1.2 (c.2.1 + c.2.2)

/-- Modelled from the spec: a uniform candidate for
`CycleSearch.generate_candidates` — coordinate j is lo + u * (hi - lo) for the
uniform draw u of that dimension, then clipped/rounded. -/
def uniformCand (bounds : Bounds) (iflag : List Bool) (u : List ℚ) : Point :=
  ((bounds.zip iflag).zip u).map fun c =>
    fixCoord c.1.2 c.1.1.1 c.1.1.2 (c.1.1.1 + c.2 * (c.1.1.2 - c.1.1.1))

/-- Modelled from the spec: `CycleSearch.generate_candidates(surrogate, bounds,
nCand)` produces 2 * nCand candidates — nCand by local perturbation of
existing evaluated points and nCand by uniform sampling across the full box.
The random elements (the evaluated point used as the base of the i-th
perturbation, the perturbation offsets, and the uniform draws) are supplied
as explicit streams `base`, `offs` and `unif`. -/
def generate_candidates (bounds : Bounds) (iflag : List Bool)
    (base offs unif : ℕ → List ℚ) (nCand : ℕ) : List Point :=
  ((List.range nCand).map fun i => perturbCand bounds iflag (base i) (offs i)) ++
  ((List.range nCand).map fun i => uniformCand bounds iflag (unif i))

lemma clip_mem (lo hi x : ℚ) (h : lo ≤ hi) : lo ≤ clip lo hi x ∧ clip lo hi x ≤ hi := by
  constructor
  · exact le_max_left _ _
  · exact max_le h (min_le_right _ _)

lemma fixCoord_mem (b : Bool) (lo hi x : ℚ) (h : lo ≤ hi) :
    lo ≤ fixCoord b lo hi x ∧ fixCoord b lo hi x ≤ hi := by
  unfold fixCoord
  cases b <;> simp only [if_true, if_false, Bool.false_eq_true] <;> exact clip_mem _ _ _ h

lemma perturbCand_length (bounds : Bounds) (iflag : List Bool) (base offs : List ℚ)
    (hif : iflag.length = bounds.length) (hb : base.length = bounds.length)
    (ho : offs.length = bounds.length) :
    (perturbCand bounds iflag base offs).length = bounds.length := by
  simp [perturbCand, hif, hb, ho]

lemma uniformCand_length (bounds : Bounds) (iflag : List Bool) (u : List ℚ)
    (hif : iflag.length = bounds.length) (hu : u.length = bounds.length) :
    (uniformCand bounds iflag u).length = bounds.length := by
  simp [uniformCand, hif, hu]

lemma perturbCand_inBounds (bounds : Bounds) (iflag : List Bool) (base offs : List ℚ)
    (hv : validBounds bounds) (hif : iflag.length = bounds.length)
    (hb : base.length = bounds.length) (ho : offs.length = bounds.length) :
    inBounds bounds (perturbCand bounds iflag base offs) := by
  have hlen := perturbCand_length bounds iflag base offs hif hb ho
  refine ⟨hlen, ?_⟩
  intro bp hbp
  obtain ⟨k, hk, hbp⟩ := List.mem_iff_getElem.mp hbp
  have hk1 : k < bounds.length := by
    have := hk; simp [List.length_zip, hlen] at this; omega
  have hk2 : k < (perturbCand bounds iflag base offs).length := by omega
  have hval : bp = (bounds[k], (perturbCand bounds iflag base offs)[k]) := by
    rw [← hbp]; exact List.getElem_zip
  have hcoord : (perturbCand bounds iflag base offs)[k] =
      fixCoord iflag[k] bounds[k].1 bounds[k].2 (base[k] + offs[k]) := by
    simp [perturbCand, List.getElem_zip]
  have hlohi : bounds[k].1 ≤ bounds[k].2 :=
    le_of_lt (hv _ (List.getElem_mem hk1))
  rw [hval, hcoord]
  exact fixCoord_mem _ _ _ _ hlohi

lemma uniformCand_inBounds (bounds : Bounds) (iflag : List Bool) (u : List ℚ)
    (hv : validBounds bounds) (hif : iflag.length = bounds.length)
    (hu : u.length = bounds.length) :
    inBounds bounds (uniformCand bounds iflag u) := by
  have hlen := uniformCand_length bounds iflag u hif hu
  refine ⟨hlen, ?_⟩
  intro bp hbp
  obtain ⟨k, hk, hbp⟩ := List.mem_iff_getElem.mp hbp
  have hk1 : k < bounds.length := by
    have := hk; simp [List.length_zip, hlen] at this; omega
  have hval : bp = (bounds[k], (uniformCand bounds iflag u)[k]) := by
    rw [← hbp]; exact List.getElem_zip
  have hcoord : (uniformCand bounds iflag u)[k] =
      fixCoord iflag[k] bounds[k].1 bounds[k].2
        (bounds[k].1 + u[k] * (bounds[k].2 - bounds[k].1)) := by
    simp [uniformCand, List.getElem_zip]
  have hlohi : bounds[k].1 ≤ bounds[k].2 :=
    le_of_lt (hv _ (List.getElem_mem hk1))
  rw [hval, hcoord]
  exact fixCoord_mem _ _ _ _ hlohi

lemma generate_candidates_length (bounds : Bounds) (iflag : List Bool)
    (base offs unif : ℕ → List ℚ) (nCand : ℕ) :
    (generate_candidates bounds iflag base offs unif nCand).length = 2 * nCand := by
  simp [generate_candidates]; ring

lemma generate_candidates_inBounds (bounds : Bounds) (iflag : List Bool)
    (base offs unif : ℕ → List ℚ) (nCand : ℕ)
    (hv : validBounds bounds) (hif : iflag.length = bounds.length)
    (hb : ∀ i, (base i).length = bounds.length)
    (ho : ∀ i, (offs i).length = bounds.length)
    (hu : ∀ i, (unif i).length = bounds.length) :
    ∀ p ∈ generate_candidates bounds iflag base offs unif nCand, inBounds bounds p := by
  intro p hp
  rcases List.mem_append.mp hp with h | h
  · obtain ⟨i, _, rfl⟩ := List.mem_map.mp h
    exact perturbCand_inBounds bounds iflag _ _ hv hif (hb i) (ho i)
  · obtain ⟨i, _, rfl⟩ := List.mem_map.mp h
    exact uniformCand_inBounds bounds iflag _ hv hif (hu i)

/-- Squared Euclidean distance between two points. -/
def sqDist (p q : Point) : ℚ := ((p.zip q).map fun a => (a.1 - a.2) ^ 2).sum

/-- The distance signal of a candidate: the minimum (squared) distance to the
already-evaluated training points. -/
def minSqDist (X : List Point) (p : Point) : ℚ :=
  match X.map (sqDist p) with
  | [] => 0
  | d :: ds => ds.foldl min d

/-- Minimum of a list of rationals (0 on the empty list). -/
def listMin : List ℚ → ℚ
  | [] => 0
  | x :: xs => xs.foldl min x

/-- Maximum of a list of rationals (0 on the empty list). -/
def listMax : List ℚ → ℚ
  | [] => 0
  | x :: xs => xs.foldl max x

/-- Modelled from the spec: min-max scaling of a raw signal to the unit
interval; a signal with zero range maps to the constant 1/2. -/
def normalize (lo hi x : ℚ) : ℚ := if hi = lo then 1/2 else (x - lo) / (hi - lo)

/-- Modelled from the spec: the fixed acceptance threshold of the evaluability
filter.  The spec pins the constant down only by "0.1 is rejected, 1.0 is
accepted"; we fix it at 1/2. -/
def acceptanceThreshold : ℚ := 1/2

/-- Modelled from the spec: the surviving candidates of
`CycleSearch.select_candidates`, each paired with its position in the incoming
candidate list.  When an evaluability surrogate is supplied (its predictions
on the candidate rows are the list `escores`), every candidate whose
evaluability score falls below the acceptance threshold is discarded. -/
def survivors (cands : List Point) (escores : Option (List ℚ)) : List (ℕ × Point) :=
  match escores with
  | none => cands.enum
  | some es => cands.enum.filter fun ip => decide (acceptanceThreshold ≤ es.getD ip.1 0)

/-- Normalized value signal of a candidate: its predicted objective value,
min-max scaled across the surviving candidate set. -/
def nvalOf (fhat : Point → ℚ) (surv : List (ℕ × Point)) (p : Point) : ℚ :=
  normalize (listMin (surv.map fun j => fhat j.2)) (listMax (surv.map fun j => fhat j.2))
    (fhat p)

/-- Normalized distance signal of a candidate: its minimum distance to the
evaluated training points, min-max scaled across the surviving candidate
set. -/
def ndistOf (X : List Point) (surv : List (ℕ × Point)) (p : Point) : ℚ :=
  normalize (listMin (surv.map fun j => minSqDist X j.2))
    (listMax (surv.map fun j => minSqDist X j.2)) (minSqDist X p)

/-- Modelled from the spec: the composite score
scoreWeight * normalized_distance + (1 - scoreWeight) * (1 - normalized_value);
higher is better. -/
def scoreOf (fhat : Point → ℚ) (X : List Point) (w : ℚ) (surv : List (ℕ × Point))
    (p : Point) : ℚ :=
  w * ndistOf X surv p + (1 - w) * (1 - nvalOf fhat surv p)

/-- The sort key of a surviving candidate: lexicographically, score descending,
then normalized distance descending (prefer farther), then normalized value
ascending (prefer lower), then candidate index.  Smaller keys are selected
first. -/
def selKey (fhat : Point → ℚ) (X : List Point) (w : ℚ) (surv : List (ℕ × Point))
    (ip : ℕ × Point) : Lex (ℚ × Lex (ℚ × Lex (ℚ × ℕ))) :=
  toLex (-(scoreOf fhat X w surv ip.2),
    toLex (-(ndistOf X surv ip.2), toLex (nvalOf fhat surv ip.2, ip.1)))

/-- Modelled from the spec: `CycleSearch.select_candidates`, keeping the index
of each selected candidate — the n surviving candidates with the highest
composite score, exact ties broken by normalized distance (prefer farther)
then by normalized value (prefer lower). -/
def selectIdx (fhat : Point → ℚ) (X : List Point) (w : ℚ) (cands : List Point)
    (escores : Option (List ℚ)) (n : ℕ) : List (ℕ × Point) :=
  ((survivors cands escores).insertionSort fun a b =>
    selKey fhat X w (survivors cands escores) a ≤ selKey fhat X w (survivors cands escores) b).take n

/-- Modelled from the spec: `CycleSearch.select_candidates(surrogate,
candidates, bounds, n, scoreWeight, evaluabilitySurrogate)`.  The surrogate's
prediction is the function `fhat`, its training inputs are `X`, and the
evaluability surrogate is represented by its predictions `escores` on the
candidate rows.  The bounds argument is part of the signature but does not
enter the scoring. -/
def select_candidates (fhat : Point → ℚ) (X : List Point) (cands : List Point)
    (_bounds : Bounds) (n : ℕ) (w : ℚ) (escores : Option (List ℚ)) : List Point :=
  (selectIdx fhat X w cands escores n).map Prod.snd

/-- Modelled from the spec: `CycleSearch.optimize(surrogate, bounds, n,
scoreWeight)` — generate 2 * nCand candidates, then select the best n among
them (no evaluability surrogate is involved). -/
def optimize (fhat : Point → ℚ) (X : List Point) (bounds : Bounds) (iflag : List Bool)
    (base offs unif : ℕ → List ℚ) (nCand n : ℕ) (w : ℚ) : List Point :=
  select_candidates fhat X (generate_candidates bounds iflag base offs unif nCand)
    bounds n w none

lemma foldl_min_le_init (l : List ℚ) (a : ℚ) : l.foldl min a ≤ a := by
  induction l generalizing a with
  | nil => exact le_refl a
  | cons x xs ih =>
    calc (x :: xs).foldl min a = xs.foldl min (min a x) := rfl
    _ ≤ min a x := ih _
    _ ≤ a := min_le_left _ _

lemma foldl_min_le_mem (l : List ℚ) (a x : ℚ) (hx : x ∈ l) : l.foldl min a ≤ x := by
  induction l generalizing a with
  | nil => cases hx
  | cons y ys ih =>
    rcases List.mem_cons.mp hx with rfl | hx'
    · calc (x :: ys).foldl min a = ys.foldl min (min a x) := rfl
      _ ≤ min a x := foldl_min_le_init _ _
      _ ≤ x := min_le_right _ _
    · exact ih _ hx'

lemma init_le_foldl_max (l : List ℚ) (a : ℚ) : a ≤ l.foldl max a := by
  induction l generalizing a with
  | nil => exact le_refl a
  | cons x xs ih =>
    calc a ≤ max a x := le_max_left _ _
    _ ≤ xs.foldl max (max a x) := ih _
    _ = (x :: xs).foldl max a := rfl

lemma mem_le_foldl_max (l : List ℚ) (a x : ℚ) (hx : x ∈ l) : x ≤ l.foldl max a := by
  induction l generalizing a with
  | nil => cases hx
  | cons y ys ih =>
    rcases List.mem_cons.mp hx with rfl | hx'
    · calc x ≤ max a x := le_max_right _ _
      _ ≤ ys.foldl max (max a x) := init_le_foldl_max _ _
      _ = (x :: ys).foldl max a := rfl
    · exact ih _ hx'

lemma listMin_le (l : List ℚ) (x : ℚ) (hx : x ∈ l) : listMin l ≤ x := by
  cases l with
  | nil => cases hx
  | cons y ys =>
    rcases List.mem_cons.mp hx with rfl | hx'
    · exact foldl_min_le_init _ _
    · exact foldl_min_le_mem _ _ _ hx'

lemma le_listMax (l : List ℚ) (x : ℚ) (hx : x ∈ l) : x ≤ listMax l := by
  cases l with
  | nil => cases hx
  | cons y ys =>
    rcases List.mem_cons.mp hx with rfl | hx'
    · exact init_le_foldl_max _ _
    · exact mem_le_foldl_max _ _ _ hx'

lemma normalize_lt (lo hi x y : ℚ) (hlo : lo ≤ x) (hhi : y ≤ hi) (hxy : x < y) :
    normalize lo hi x < normalize lo hi y := by
  have hr : lo < hi := lt_of_le_of_lt hlo (lt_of_lt_of_le hxy hhi)
  have hr' : (0:ℚ) < hi - lo := by linarith
  unfold normalize
  rw [if_neg (by intro h; rw [h] at hr; exact lt_irrefl lo hr),
    if_neg (by intro h; rw [h] at hr; exact lt_irrefl lo hr),
    div_eq_mul_inv, div_eq_mul_inv]
  exact mul_lt_mul_of_pos_right (by linarith) (inv_pos.mpr hr')

/-- Selection stability: if a has a strictly smaller sort key than b and b made
it into the first n entries of the key-sorted list, then so did a. -/
lemma mem_take_insertionSort_of_key_lt {α β : Type*} [LinearOrder β]
    (K : α → β) [DecidableRel fun x y : α => K x ≤ K y]
    (l : List α) (n : ℕ) (a b : α) (ha : a ∈ l)
    (hb : b ∈ (l.insertionSort fun x y => K x ≤ K y).take n)
    (hab : K a < K b) : a ∈ (l.insertionSort fun x y => K x ≤ K y).take n := by
  haveI : IsTotal α fun x y => K x ≤ K y := ⟨fun x y => le_total _ _⟩
  haveI : IsTrans α fun x y => K x ≤ K y := ⟨fun _ _ _ h1 h2 => le_trans h1 h2⟩
  have hsorted := List.sorted_insertionSort (fun x y => K x ≤ K y) l
  by_contra hna
  have has : a ∈ l.insertionSort fun x y => K x ≤ K y :=
    (List.perm_insertionSort _ l).mem_iff.mpr ha
  rw [← List.take_append_drop n (l.insertionSort fun x y => K x ≤ K y)] at has
  rcases List.mem_append.mp has with h | h
  · exact hna h
  · have hba :=
      (List.pairwise_append.mp
        (by rw [List.take_append_drop]; exact hsorted)).2.2 b hb a h
    exact absurd hab (not_lt.mpr hba)

lemma selKey_lt_of_val_eq_dist_gt (fhat : Point → ℚ) (X : List Point) (w : ℚ)
    (surv : List (ℕ × Point)) (hw : 0 ≤ w) (ip jq : ℕ × Point)
    (hip : ip ∈ surv) (hjq : jq ∈ surv)
    (hval : fhat ip.2 = fhat jq.2) (hdist : minSqDist X jq.2 < minSqDist X ip.2) :
    selKey fhat X w surv ip < selKey fhat X w surv jq := by
  have hnv : nvalOf fhat surv ip.2 = nvalOf fhat surv jq.2 := by
    unfold nvalOf; rw [hval]
  have hdq : minSqDist X jq.2 ∈ surv.map fun j => minSqDist X j.2 :=
    List.mem_map_of_mem _ hjq
  have hdp : minSqDist X ip.2 ∈ surv.map fun j => minSqDist X j.2 :=
    List.mem_map_of_mem _ hip
  have hnd : ndistOf X surv jq.2 < ndistOf X surv ip.2 :=
    normalize_lt _ _ _ _ (listMin_le _ _ hdq) (le_listMax _ _ hdp) hdist
  have hsc : scoreOf fhat X w surv jq.2 ≤ scoreOf fhat X w surv ip.2 := by
    unfold scoreOf
    rw [hnv]
    have := mul_le_mul_of_nonneg_left (le_of_lt hnd) hw
    linarith
  rcases eq_or_lt_of_le hsc with heq | hlt
  · unfold selKey
    rw [Prod.Lex.lt_iff]
    exact Or.inr ⟨by rw [heq], by rw [Prod.Lex.lt_iff]; exact Or.inl (neg_lt_neg hnd)⟩
  · unfold selKey
    rw [Prod.Lex.lt_iff]
    exact Or.inl (neg_lt_neg hlt)

lemma selKey_lt_of_dist_eq_val_lt (fhat : Point → ℚ) (X : List Point) (w : ℚ)
    (surv : List (ℕ × Point)) (hw : w ≤ 1) (ip jq : ℕ × Point)
    (hip : ip ∈ surv) (hjq : jq ∈ surv)
    (hdist : minSqDist X ip.2 = minSqDist X jq.2) (hval : fhat ip.2 < fhat jq.2) :
    selKey fhat X w surv ip < selKey fhat X w surv jq := by
  have hnd : ndistOf X surv ip.2 = ndistOf X surv jq.2 := by
    unfold ndistOf; rw [hdist]
  have hvq : fhat jq.2 ∈ surv.map fun j => fhat j.2 := List.mem_map_of_mem _ hjq
  have hvp : fhat ip.2 ∈ surv.map fun j => fhat j.2 := List.mem_map_of_mem _ hip
  have hnv : nvalOf fhat surv ip.2 < nvalOf fhat surv jq.2 :=
    normalize_lt _ _ _ _ (listMin_le _ _ hvp) (le_listMax _ _ hvq) hval
  have hsc : scoreOf fhat X w surv jq.2 ≤ scoreOf fhat X w surv ip.2 := by
    unfold scoreOf
    rw [hnd]
    have h0 : (0:ℚ) ≤ 1 - w := by linarith
    have := mul_le_mul_of_nonneg_left (by linarith : 1 - nvalOf fhat surv jq.2 ≤ 1 - nvalOf fhat surv ip.2) h0
    linarith
  rcases eq_or_lt_of_le hsc with heq | hlt
  · unfold selKey
    rw [Prod.Lex.lt_iff]
    refine Or.inr ⟨by rw [heq], ?_⟩
    rw [Prod.Lex.lt_iff]
    exact Or.inr ⟨by rw [hnd], by rw [Prod.Lex.lt_iff]; exact Or.inl hnv⟩
  · unfold selKey
    rw [Prod.Lex.lt_iff]
    exact Or.inl (neg_lt_neg hlt)

section
attribute [local semireducible] Rat.add Rat.mul Rat.sub Rat.inv Rat.ofScientific

/-- C1: for every valid bounds sequence and every nCand > 0,
generate_candidates returns exactly 2 * nCand candidate points, and every
coordinate of every returned candidate lies within the corresponding
dimension's [low, high] bounds.  The surrogate's role in the generator is the
set of evaluated points the perturbations start from; those base points and
the random draws enter as the streams base, offs, unif. -/
theorem generate_candidates_count_and_inBounds (bounds : Bounds) (iflag : List Bool)
    (base offs unif : ℕ → List ℚ) (nCand : ℕ)
    (hv : validBounds bounds) (hnc : 0 < nCand)
    (hif : iflag.length = bounds.length)
    (hb : ∀ i, (base i).length = bounds.length)
    (ho : ∀ i, (offs i).length = bounds.length)
    (hu : ∀ i, (unif i).length = bounds.length) :
    (generate_candidates bounds iflag base offs unif nCand).length = 2 * nCand ∧
    ∀ p ∈ generate_candidates bounds iflag base offs unif nCand, inBounds bounds p :=
  ⟨generate_candidates_length _ _ _ _ _ _,
   generate_candidates_inBounds _ _ _ _ _ _ hv hif hb ho hu⟩

/-- Witness for C1: bounds [[0,10],[0,10]], nCand = 2, concrete streams (the
perturbation of [5,5] by [7,-2] needs clipping in both coordinates). -/
theorem generate_candidates_count_and_inBounds_witness :
    validBounds [((0:ℚ),10),(0,10)] ∧ (0:ℕ) < 2 ∧
    ((generate_candidates [((0:ℚ),10),(0,10)] [false,false]
        (fun _ => [5,5]) (fun _ => [7,-2]) (fun _ => [1/2,1/2]) 2).length = 2 * 2 ∧
     ∀ p ∈ generate_candidates [((0:ℚ),10),(0,10)] [false,false]
        (fun _ => [5,5]) (fun _ => [7,-2]) (fun _ => [1/2,1/2]) 2,
       inBounds [((0:ℚ),10),(0,10)] p) :=
  ⟨by decide, by decide,
   generate_candidates_count_and_inBounds _ _ _ _ _ _ (by decide) (by decide)
     rfl (fun _ => rfl) (fun _ => rfl) (fun _ => rfl)⟩

/-- C3: tie-break law of select_candidates — whenever two surviving candidates
have equal predicted objective value, the one farther from the nearest
evaluated training point is preferred (if the nearer one is selected, so is
the farther one); whenever two surviving candidates have equal minimum
distance to the evaluated points, the one with the lower predicted value is
preferred. -/
theorem select_candidates_tiebreak (fhat : Point → ℚ) (X : List Point)
    (cands : List Point) (es : Option (List ℚ)) (n : ℕ) (w : ℚ)
    (hw0 : 0 ≤ w) (hw1 : w ≤ 1) (i j : ℕ) (p q : Point)
    (hip : (i, p) ∈ survivors cands es) (hjq : (j, q) ∈ survivors cands es) :
    (fhat p = fhat q → minSqDist X q < minSqDist X p →
      (j, q) ∈ selectIdx fhat X w cands es n → (i, p) ∈ selectIdx fhat X w cands es n) ∧
    (minSqDist X p = minSqDist X q → fhat p < fhat q →
      (j, q) ∈ selectIdx fhat X w cands es n → (i, p) ∈ selectIdx fhat X w cands es n) := by
  constructor
  · intro hval hdist hsel
    rw [selectIdx] at hsel ⊢
    exact mem_take_insertionSort_of_key_lt (selKey fhat X w (survivors cands es))
      (survivors cands es) n _ _ hip hsel
      (selKey_lt_of_val_eq_dist_gt fhat X w (survivors cands es) hw0 (i, p) (j, q)
        hip hjq hval hdist)
  · intro hdist hval hsel
    rw [selectIdx] at hsel ⊢
    exact mem_take_insertionSort_of_key_lt (selKey fhat X w (survivors cands es))
      (survivors cands es) n _ _ hip hsel
      (selKey_lt_of_dist_eq_val_lt fhat X w (survivors cands es) hw1 (i, p) (j, q)
        hip hjq hdist hval)

/-- Witness for C3: the tie-break scenario of the test suite — one training
point [5,5], candidates [[0,0],[9,1],[4,6]] with equal predicted values for
the two survivors, evaluability scores [0.1,1,1], scoreWeight 1/2. -/
theorem select_candidates_tiebreak_witness :
    ((0:ℚ) ≤ 1/2 ∧ (1/2:ℚ) ≤ 1) ∧
    ((1, ([9,1] : Point)) ∈ survivors [[0,0],[9,1],[4,6]] (some [1/10,1,1])) ∧
    ((2, ([4,6] : Point)) ∈ survivors [[0,0],[9,1],[4,6]] (some [1/10,1,1])) ∧
    (((fun p : Point => p.sum) [9,1] = (fun p : Point => p.sum) [4,6] →
        minSqDist [[5,5]] [4,6] < minSqDist [[5,5]] [9,1] →
        (2, ([4,6] : Point)) ∈ selectIdx (fun p => p.sum) [[5,5]] (1/2)
          [[0,0],[9,1],[4,6]] (some [1/10,1,1]) 1 →
        (1, ([9,1] : Point)) ∈ selectIdx (fun p => p.sum) [[5,5]] (1/2)
          [[0,0],[9,1],[4,6]] (some [1/10,1,1]) 1) ∧
      (minSqDist [[5,5]] [9,1] = minSqDist [[5,5]] [4,6] →
        (fun p : Point => p.sum) [9,1] < (fun p : Point => p.sum) [4,6] →
        (2, ([4,6] : Point)) ∈ selectIdx (fun p => p.sum) [[5,5]] (1/2)
          [[0,0],[9,1],[4,6]] (some [1/10,1,1]) 1 →
        (1, ([9,1] : Point)) ∈ selectIdx (fun p => p.sum) [[5,5]] (1/2)
          [[0,0],[9,1],[4,6]] (some [1/10,1,1]) 1)) :=
  ⟨⟨by decide, by decide⟩, by decide, by decide,
   select_candidates_tiebreak (fun p => p.sum) [[5,5]] [[0,0],[9,1],[4,6]]
     (some [1/10,1,1]) 1 (1/2) (by decide) (by decide) 1 2 [9,1] [4,6]
     (by decide) (by decide)⟩

/-- C4: evaluability filter law — when an evaluability surrogate is supplied,
a candidate whose evaluability score falls below the acceptance threshold is
never present in the returned selection, regardless of its value or distance
signals. -/
theorem select_candidates_evaluability_filter (fhat : Point → ℚ) (X : List Point)
    (cands : List Point) (es : List ℚ) (n : ℕ) (w : ℚ) (i : ℕ) (p : Point)
    (hbelow : es.getD i 0 < acceptanceThreshold) :
    (i, p) ∉ selectIdx fhat X w cands (some es) n := by
  intro hmem
  rw [selectIdx] at hmem
  have h1 := List.mem_of_mem_take hmem
  have h2 : (i, p) ∈ survivors cands (some es) :=
    (List.perm_insertionSort _ _).mem_iff.mp h1
  rw [survivors] at h2
  have h3 := (List.mem_filter.mp h2).2
  rw [decide_eq_true_eq] at h3
  exact absurd h3 (not_le.mpr hbelow)

/-- Witness for C4: the first candidate has evaluability score 0.1, below the
threshold, and is not selected even though it is farthest from the training
data. -/
theorem select_candidates_evaluability_filter_witness :
    ([1/10,1,1] : List ℚ).getD 0 0 < acceptanceThreshold ∧
    (0, ([0,0] : Point)) ∉ selectIdx (fun p => p.sum) [[5,5]] (1/2)
      [[0,0],[9,1],[4,6]] (some [1/10,1,1]) 1 :=
  ⟨by decide,
   select_candidates_evaluability_filter (fun p => p.sum) [[5,5]]
     [[0,0],[9,1],[4,6]] [1/10,1,1] 1 (1/2) 0 [0,0] (by decide)⟩

/-- C5: the weighted-score scenario — training inputs [[5,5],[6,6],[3,4]]
(whose recorded outputs are [0,1,0.5]; the test surrogate predicts the
coordinate sum), bounds [[0,10],[0,10]], candidates [[0,0],[2,6],[7,0.5]],
evaluability scores [0.1,1,1] and scoreWeight 0.75: select_candidates with
n = 1 returns the single point [7, 0.5]. -/
theorem select_candidates_weighted_scenario :
    select_candidates (fun p => p.sum) [[5,5],[6,6],[3,4]]
      [[0,0],[2,6],[7,1/2]] [(0,10),(0,10)] 1 (3/4) (some [1/10,1,1]) = [[7,1/2]] := by
  decide

/-- C2: optimize returns a list of n points, each of the full dimension and
within bounds componentwise. -/
theorem optimize_shape_and_inBounds (fhat : Point → ℚ) (X : List Point)
    (bounds : Bounds) (iflag : List Bool) (base offs unif : ℕ → List ℚ)
    (nCand n : ℕ) (w : ℚ)
    (hv : validBounds bounds) (hn : 0 < n) (hdim : 0 < bounds.length)
    (hcap : n ≤ 2 * nCand)
    (hif : iflag.length = bounds.length)
    (hb : ∀ i, (base i).length = bounds.length)
    (ho : ∀ i, (offs i).length = bounds.length)
    (hu : ∀ i, (unif i).length = bounds.length) :
    (optimize fhat X bounds iflag base offs unif nCand n w).length = n ∧
    ∀ p ∈ optimize fhat X bounds iflag base offs unif nCand n w, inBounds bounds p := by
  constructor
  · rw [optimize, select_candidates, List.length_map, selectIdx, List.length_take,
      List.length_insertionSort, survivors, List.enum_length,
      generate_candidates_length]
    omega
  · intro p hp
    rw [optimize, select_candidates] at hp
    obtain ⟨ip, hip, rfl⟩ := List.mem_map.mp hp
    rw [selectIdx] at hip
    have h2 := List.mem_of_mem_take hip
    have h3 : ip ∈ survivors (generate_candidates bounds iflag base offs unif nCand) none :=
      (List.perm_insertionSort _ _).mem_iff.mp h2
    rw [survivors] at h3
    have h4 : ip.2 ∈ generate_candidates bounds iflag base offs unif nCand := by
      have h5 := List.mem_map_of_mem Prod.snd h3
      rwa [List.enum_map_snd] at h5
    exact generate_candidates_inBounds _ _ _ _ _ _ hv hif hb ho hu _ h4

/-- Witness for C2: n = 1 point in dimension 2 with nCand = 2. -/
theorem optimize_shape_and_inBounds_witness :
    validBounds [((0:ℚ),1),(0,1)] ∧ (0:ℕ) < 1 ∧ (1:ℕ) ≤ 2 * 2 ∧
    ((optimize (fun p => p.sum) [[1/2,1/2]] [((0:ℚ),1),(0,1)] [false,false]
        (fun _ => [1/2,1/2]) (fun _ => [1/4,-1/4]) (fun _ => [1/3,2/3]) 2 1 (1/2)).length = 1 ∧
     ∀ p ∈ optimize (fun p => p.sum) [[1/2,1/2]] [((0:ℚ),1),(0,1)] [false,false]
        (fun _ => [1/2,1/2]) (fun _ => [1/4,-1/4]) (fun _ => [1/3,2/3]) 2 1 (1/2),
       inBounds [((0:ℚ),1),(0,1)] p) :=
  ⟨by decide, by decide, by decide,
   optimize_shape_and_inBounds (fun p => p.sum) [[1/2,1/2]] [((0:ℚ),1),(0,1)]
     [false,false] (fun _ => [1/2,1/2]) (fun _ => [1/4,-1/4]) (fun _ => [1/3,2/3])
     2 1 (1/2) (by decide) (by decide) (by decide) (by decide) rfl
     (fun _ => rfl) (fun _ => rfl) (fun _ => rfl)⟩

end

end CycleSearch

namespace VlseBench

/-- A Python numeric literal as it appears in a bounds pair: either an int or
a float value.  The driver's integrality derivation inspects the Python type
via isinstance(-, int). -/
inductive PyNum where
  | int : ℤ → PyNum
  | float : ℚ → PyNum
deriving DecidableEq

instance : Inhabited PyNum := ⟨.float 0⟩

/-- isinstance(x, int) for a bound entry. -/
def PyNum.isInt : PyNum → Bool
  | .int _ => true
  | .float _ => false

/-- The numeric value of a bound entry. -/
def PyNum.val : PyNum → ℚ
  | .int n => (n : ℚ)
  | .float q => q

/-- Whether the bound entry is a whole number, irrespective of its Python
type. -/
def PyNum.isWhole : PyNum → Bool
  | .int _ => true
  | .float q => decide (q.den = 1)

/-- The soogo.optimize functions the driver dispatches on. -/
inductive Optimizer where
  | surrogate_optimization
  | dycors
  | multistart_msrs
  | cptv
  | cptvl
  | bayesian_optimization
deriving DecidableEq

/-- The concrete surrogate-model classes of soogo.model. -/
inductive ModelKind where
  | rbfModel
  | gaussianProcess
deriving DecidableEq

/-- The state of a surrogate-model object: its class, its integrality index
set, and its training data. -/
structure ModelObj where
  kind : ModelKind
  iindex : List ℕ
  trainX : List (List ℚ)
  trainY : List ℚ
deriving DecidableEq

instance : Inhabited ModelObj := ⟨⟨.rbfModel, [], [], []⟩⟩

/-- model.update(x, y): append the new samples and refit. -/
def ModelObj.update (m : ModelObj) (xs : List (List ℚ)) (ys : List ℚ) : ModelObj :=
  { m with trainX := m.trainX ++ xs, trainY := m.trainY ++ ys }

/-- The state of an acquisition object; hasMaxeval and hasSampler model the
hasattr checks of the driver. -/
structure AcqObj where
  hasMaxeval : Bool
  maxeval : ℕ
  hasSampler : Bool
  samplerN : ℕ
deriving DecidableEq

instance : Inhabited AcqObj := ⟨⟨false, 0, false, 0⟩⟩

/-- The mutable store of model and acquisition objects; references are list
indices.  deepcopy allocates a fresh index holding a copy of the referenced
value, so later writes through one reference never affect another
reference. -/
structure Heap where
  models : List ModelObj
  acqs : List AcqObj
deriving DecidableEq

/-- Read a model reference. -/
def Heap.getModel (h : Heap) (r : ℕ) : ModelObj := h.models.getD r default

/-- Read an acquisition reference. -/
def Heap.getAcq (h : Heap) (r : ℕ) : AcqObj := h.acqs.getD r default

/-- Allocate a fresh model object (deepcopy target); returns the new heap and
the fresh reference. -/
def Heap.allocModel (h : Heap) (m : ModelObj) : Heap × ℕ :=
  ({ h with models := h.models ++ [m] }, h.models.length)

/-- Allocate a fresh acquisition object (deepcopy target). -/
def Heap.allocAcq (h : Heap) (a : AcqObj) : Heap × ℕ :=
  ({ h with acqs := h.acqs ++ [a] }, h.acqs.length)

/-- Overwrite the model object behind a reference. -/
def Heap.setModel (h : Heap) (r : ℕ) (m : ModelObj) : Heap :=
  { h with models := h.models.set r m }

/-- Overwrite the acquisition object behind a reference. -/
def Heap.setAcq (h : Heap) (r : ℕ) (a : AcqObj) : Heap :=
  { h with acqs := h.acqs.set r a }

/-- The integrality derivation of run_optimizer: dimension i is integral iff
isinstance(bounds[i][0], int) and isinstance(bounds[i][1], int). -/
def derivedIindex (bounds : List (PyNum × PyNum)) : List ℕ :=
  (List.range bounds.length).filter fun i =>
    (bounds.getD i default).1.isInt && (bounds.getD i default).2.isInt

/-- One iteration of run_optimizer's loop as observed from outside: what the
run asked of the sampler and the objective, and the arguments of the inner
optimizer call. -/
structure RunCall where
  run : ℕ
  samplerSize : ℕ
  nEvals : ℕ
  budget : ℤ
  modelArg : ModelObj
  acqArg : Option AcqObj
deriving DecidableEq

/-- The fixed collaborators of one benchmark invocation: the batch objective,
the length of the objective's declared domain, the external space-filling
sampler (arguments: requested count, bounds, random seed), and — abstractly —
the mutation the inner optimizer performs on the surrogate-model object
passed to it during run i. -/
structure DriverEnv where
  objf : List (List ℚ) → List ℚ
  domLen : ℕ
  sampler : ℕ → List (PyNum × PyNum) → ℕ → List (List ℚ)
  optMut : ℕ → ModelObj → ModelObj

/-- One iteration of the run loop of run_optimizer: seed i, draw the initial
design of 2 * (nArgs + 1) points, evaluate the objective on it, deep-copy the
surrogate and update it with the design, then call the inner optimizer with
the remaining budget maxEval - 2 * (nArgs + 1); only surrogate_optimization
and dycors receive the (per-run deep-copied) acquisition object. -/
def runOne (env : DriverEnv) (bounds : List (PyNum × PyNum)) (maxEval : ℕ)
    (optimizer : Optimizer) (m : ℕ) (a : Option ℕ) (h : Heap) (i : ℕ) :
    Heap × RunCall :=
  let nArgs := bounds.length
  let sample0 := env.sampler (2 * (nArgs + 1)) bounds i
  let fsample0 := env.objf sample0
  let al := h.allocModel (h.getModel m)
  let h1 := al.1
  let mi := al.2
  let h2 := h1.setModel mi ((h1.getModel mi).update sample0 fsample0)
  let acqPass :=
    if optimizer = .surrogate_optimization ∨ optimizer = .dycors then
      match a with
      | none => (h2, (none : Option AcqObj))
      | some ar =>
        let al2 := h2.allocAcq (h2.getAcq ar)
        (al2.1, some (al2.1.getAcq al2.2))
    else (h2, none)
  let h3 := acqPass.1
  let call : RunCall :=
    { run := i, samplerSize := 2 * (nArgs + 1), nEvals := fsample0.length,
      budget := (maxEval : ℤ) - 2 * (nArgs + 1), modelArg := h3.getModel mi,
      acqArg := acqPass.2 }
  (h3.setModel mi (env.optMut i (h3.getModel mi)), call)

/-- The run loop of run_optimizer over the run indices 0 .. nRuns-1. -/
def runLoop (env : DriverEnv) (bounds : List (PyNum × PyNum)) (maxEval : ℕ)
    (optimizer : Optimizer) (m : ℕ) (a : Option ℕ) :
    List ℕ → Heap → Heap × List RunCall
  | [], h => (h, [])
  | i :: is, h =>
    let hc := runOne env bounds maxEval optimizer m a h i
    let rest := runLoop env bounds maxEval optimizer m a is hc.1
    (rest.1, hc.2 :: rest.2)

/-- The surrogate setup of run_optimizer: when the deep-copied model is an RBF
model, its integrality index set is overwritten with the set derived from the
bounds; any other model is left untouched. -/
def configureModel (bounds : List (PyNum × PyNum)) (m0 : ModelObj) : ModelObj :=
  if m0.kind = .rbfModel then { m0 with iindex := derivedIindex bounds } else m0

/-- The acquisition setup of run_optimizer: push maxEval into
acquisitionFunc.maxeval and min(100 * nArgs, 5000) into
acquisitionFunc.sampler.n, each write guarded by the hasattr check. -/
def configureAcq (maxEval nArgs : ℕ) (a0 : AcqObj) : AcqObj :=
  let a1 := if a0.hasMaxeval then { a0 with maxeval := maxEval } else a0
  if a1.hasSampler then { a1 with samplerN := min (100 * nArgs) 5000 } else a1

/-- run_optimizer(objf, maxEval, algo, nRuns, bounds): assert the bound count
against the objective's declared domain; deep-copy the configured surrogate
and, when it is an RBF model, set its integrality index set from the Python
types of the bounds; deep-copy the configured acquisition and push maxEval
and the sampler size into it; then perform the nRuns independent runs. -/
def runOptimizer (env : DriverEnv) (h0 : Heap) (modelRef : ℕ) (acqRef : Option ℕ)
    (optimizer : Optimizer) (maxEval nRuns : ℕ) (bounds : List (PyNum × PyNum)) :
    Except String (Heap × List RunCall) :=
  if bounds.length ≠ env.domLen then
    .error "assertion failed: len(bounds) == len(objf.domain())"
  else
    let al := h0.allocModel (h0.getModel modelRef)
    let h1 := al.1
    let m := al.2
    let h2 := h1.setModel m (configureModel bounds (h1.getModel m))
    let acqAl :=
      match acqRef with
      | none => (h2, (none : Option ℕ))
      | some ar =>
        let al2 := h2.allocAcq (h2.getAcq ar)
        (al2.1, some al2.2)
    let h3 := acqAl.1
    let h4 :=
      match acqAl.2 with
      | none => h3
      | some ai => h3.setAcq ai (configureAcq maxEval bounds.length (h3.getAcq ai))
    .ok (runLoop env bounds maxEval optimizer m acqAl.2 (List.range nRuns) h4)

/-- The acquisition classes configured in the algorithms table. -/
inductive AcqKind where
  | minimizeSurrogate
  | maximizeEI
deriving DecidableEq

/-- An entry of the algorithms table: surrogate-model class, optimizer
function, configured acquisition (None for SRS, DYCORS, CPTV, CPTVl). -/
structure AlgoEntry where
  modelKind : ModelKind
  optimizer : Optimizer
  acquisition : Option AcqKind
deriving DecidableEq

/-- The algorithms table of vlse_bench.py. -/
def algorithms : List (String × AlgoEntry) :=
  [("SRS", ⟨.rbfModel, .multistart_msrs, none⟩),
   ("DYCORS", ⟨.rbfModel, .dycors, none⟩),
   ("CPTV", ⟨.rbfModel, .cptv, none⟩),
   ("CPTVl", ⟨.rbfModel, .cptvl, none⟩),
   ("MLSL", ⟨.rbfModel, .surrogate_optimization, some .minimizeSurrogate⟩),
   ("GP", ⟨.gaussianProcess, .bayesian_optimization, some .maximizeEI⟩)]

lemma Heap.getModel_allocModel_fresh (h : Heap) (v : ModelObj) :
    (h.allocModel v).1.getModel (h.allocModel v).2 = v := by
  simp [Heap.allocModel, Heap.getModel, List.getD]

lemma Heap.getModel_allocModel_old (h : Heap) (v : ModelObj) (r : ℕ)
    (hr : r < h.models.length) : (h.allocModel v).1.getModel r = h.getModel r := by
  simp [Heap.allocModel, Heap.getModel, List.getD, List.getElem?_append_left hr]

lemma Heap.getAcq_allocModel (h : Heap) (v : ModelObj) (r : ℕ) :
    (h.allocModel v).1.getAcq r = h.getAcq r := rfl

lemma Heap.getModel_allocAcq (h : Heap) (v : AcqObj) (r : ℕ) :
    (h.allocAcq v).1.getModel r = h.getModel r := rfl

lemma Heap.getAcq_allocAcq_fresh (h : Heap) (v : AcqObj) :
    (h.allocAcq v).1.getAcq (h.allocAcq v).2 = v := by
  simp [Heap.allocAcq, Heap.getAcq, List.getD]

lemma Heap.getAcq_allocAcq_old (h : Heap) (v : AcqObj) (r : ℕ)
    (hr : r < h.acqs.length) : (h.allocAcq v).1.getAcq r = h.getAcq r := by
  simp [Heap.allocAcq, Heap.getAcq, List.getD, List.getElem?_append_left hr]

lemma Heap.getModel_setModel_self (h : Heap) (r : ℕ) (v : ModelObj)
    (hr : r < h.models.length) : (h.setModel r v).getModel r = v := by
  simp [Heap.setModel, Heap.getModel, List.getD, List.getElem?_set_self', hr]

lemma Heap.getModel_setModel_other (h : Heap) (r r' : ℕ) (v : ModelObj)
    (hne : r' ≠ r) : (h.setModel r v).getModel r' = h.getModel r' := by
  simp [Heap.setModel, Heap.getModel, List.getD, List.getElem?_set_ne (Ne.symm hne)]

lemma Heap.getAcq_setModel (h : Heap) (r : ℕ) (v : ModelObj) (r' : ℕ) :
    (h.setModel r v).getAcq r' = h.getAcq r' := rfl

lemma Heap.getModel_setAcq (h : Heap) (r : ℕ) (v : AcqObj) (r' : ℕ) :
    (h.setAcq r v).getModel r' = h.getModel r' := rfl

lemma Heap.getAcq_setAcq_other (h : Heap) (r r' : ℕ) (v : AcqObj)
    (hne : r' ≠ r) : (h.setAcq r v).getAcq r' = h.getAcq r' := by
  simp [Heap.setAcq, Heap.getAcq, List.getD, List.getElem?_set_ne (Ne.symm hne)]

lemma Heap.getAcq_setAcq_self (h : Heap) (r : ℕ) (v : AcqObj)
    (hr : r < h.acqs.length) : (h.setAcq r v).getAcq r = v := by
  simp [Heap.setAcq, Heap.getAcq, List.getD, List.getElem?_set_self', hr]

lemma Heap.models_length_allocModel (h : Heap) (v : ModelObj) :
    (h.allocModel v).1.models.length = h.models.length + 1 := by
  simp [Heap.allocModel]

lemma Heap.models_length_setModel (h : Heap) (r : ℕ) (v : ModelObj) :
    (h.setModel r v).models.length = h.models.length := by
  simp [Heap.setModel]

lemma Heap.models_length_allocAcq (h : Heap) (v : AcqObj) :
    (h.allocAcq v).1.models.length = h.models.length := rfl

lemma Heap.acqs_length_allocAcq (h : Heap) (v : AcqObj) :
    (h.allocAcq v).1.acqs.length = h.acqs.length + 1 := by
  simp [Heap.allocAcq]

lemma Heap.acqs_length_allocModel (h : Heap) (v : ModelObj) :
    (h.allocModel v).1.acqs.length = h.acqs.length := rfl

lemma Heap.acqs_length_setModel (h : Heap) (r : ℕ) (v : ModelObj) :
    (h.setModel r v).acqs.length = h.acqs.length := rfl

lemma Heap.acqs_length_setAcq (h : Heap) (r : ℕ) (v : AcqObj) :
    (h.setAcq r v).acqs.length = h.acqs.length := by
  simp [Heap.setAcq]

lemma Heap.models_length_setAcq (h : Heap) (r : ℕ) (v : AcqObj) :
    (h.setAcq r v).models.length = h.models.length := rfl

lemma runOne_call_fields (env : DriverEnv) (bounds : List (PyNum × PyNum))
    (maxEval : ℕ) (optimizer : Optimizer) (m : ℕ) (a : Option ℕ) (h : Heap) (i : ℕ) :
    (runOne env bounds maxEval optimizer m a h i).2.run = i ∧
    (runOne env bounds maxEval optimizer m a h i).2.samplerSize = 2 * (bounds.length + 1) ∧
    (runOne env bounds maxEval optimizer m a h i).2.nEvals =
      (env.objf (env.sampler (2 * (bounds.length + 1)) bounds i)).length ∧
    (runOne env bounds maxEval optimizer m a h i).2.budget =
      (maxEval : ℤ) - 2 * (bounds.length + 1) := by
  unfold runOne
  refine ⟨rfl, rfl, rfl, rfl⟩

lemma runOne_modelArg (env : DriverEnv) (bounds : List (PyNum × PyNum))
    (maxEval : ℕ) (optimizer : Optimizer) (m : ℕ) (a : Option ℕ) (h : Heap) (i : ℕ)
    (hm : m < h.models.length) :
    (runOne env bounds maxEval optimizer m a h i).2.modelArg =
      (h.getModel m).update (env.sampler (2 * (bounds.length + 1)) bounds i)
        (env.objf (env.sampler (2 * (bounds.length + 1)) bounds i)) := by
  have hmi : (h.allocModel (h.getModel m)).2 < (h.allocModel (h.getModel m)).1.models.length := by
    rw [Heap.models_length_allocModel]
    simp [Heap.allocModel]
  unfold runOne
  split
  · rcases a with _ | ar
    · show (Heap.setModel _ _ _).getModel _ = _
      rw [Heap.getModel_setModel_self _ _ _ hmi, Heap.getModel_allocModel_fresh]
    · show ((Heap.setModel _ _ _).allocAcq _).1.getModel _ = _
      rw [Heap.getModel_allocAcq, Heap.getModel_setModel_self _ _ _ hmi,
        Heap.getModel_allocModel_fresh]
  · show (Heap.setModel _ _ _).getModel _ = _
    rw [Heap.getModel_setModel_self _ _ _ hmi, Heap.getModel_allocModel_fresh]

lemma runOne_acqArg (env : DriverEnv) (bounds : List (PyNum × PyNum))
    (maxEval : ℕ) (optimizer : Optimizer) (m : ℕ) (a : Option ℕ) (h : Heap) (i : ℕ)
    (ha : ∀ ar ∈ a, ar < h.acqs.length) :
    (runOne env bounds maxEval optimizer m a h i).2.acqArg =
      if optimizer = .surrogate_optimization ∨ optimizer = .dycors then
        a.map fun ar => h.getAcq ar
      else none := by
  cases optimizer <;> rcases a with _ | ar <;>
    simp [runOne, Heap.getAcq_allocAcq_fresh, Heap.getAcq_setModel, Heap.getAcq_allocModel]

lemma runOne_preserves (env : DriverEnv) (bounds : List (PyNum × PyNum))
    (maxEval : ℕ) (optimizer : Optimizer) (m : ℕ) (a : Option ℕ) (h : Heap) (i : ℕ) :
    (∀ r, r < h.models.length →
      (runOne env bounds maxEval optimizer m a h i).1.getModel r = h.getModel r) ∧
    (∀ r, r < h.acqs.length →
      (runOne env bounds maxEval optimizer m a h i).1.getAcq r = h.getAcq r) ∧
    h.models.length ≤ (runOne env bounds maxEval optimizer m a h i).1.models.length ∧
    h.acqs.length ≤ (runOne env bounds maxEval optimizer m a h i).1.acqs.length := by
  have hmi : (h.allocModel (h.getModel m)).2 = h.models.length := rfl
  unfold runOne
  split
  · rcases a with _ | ar <;> dsimp only
    · refine ⟨?_, ?_, ?_, ?_⟩
      · intro r hr
        rw [Heap.getModel_setModel_other _ _ _ _ (by omega),
          Heap.getModel_setModel_other _ _ _ _ (by omega),
          Heap.getModel_allocModel_old _ _ _ hr]
      · intro r hr
        rfl
      · rw [Heap.models_length_setModel, Heap.models_length_setModel,
          Heap.models_length_allocModel]
        omega
      · exact le_refl _
    · refine ⟨?_, ?_, ?_, ?_⟩
      · intro r hr
        rw [Heap.getModel_setModel_other _ _ _ _ (by omega), Heap.getModel_allocAcq,
          Heap.getModel_setModel_other _ _ _ _ (by omega),
          Heap.getModel_allocModel_old _ _ _ hr]
      · intro r hr
        rw [Heap.getAcq_setModel, Heap.getAcq_allocAcq_old]
        · rfl
        · exact hr
      · rw [Heap.models_length_setModel, Heap.models_length_allocAcq,
          Heap.models_length_setModel, Heap.models_length_allocModel]
        omega
      · rw [Heap.acqs_length_setModel, Heap.acqs_length_allocAcq,
          Heap.acqs_length_setModel, Heap.acqs_length_allocModel]
        omega
  · refine ⟨?_, ?_, ?_, ?_⟩
    · intro r hr
      rw [Heap.getModel_setModel_other _ _ _ _ (by omega),
        Heap.getModel_setModel_other _ _ _ _ (by omega),
        Heap.getModel_allocModel_old _ _ _ hr]
    · intro r hr
      rfl
    · rw [Heap.models_length_setModel, Heap.models_length_setModel,
        Heap.models_length_allocModel]
      omega
    · exact le_refl _

lemma runLoop_nil (env : DriverEnv) (bounds : List (PyNum × PyNum)) (maxEval : ℕ)
    (optimizer : Optimizer) (m : ℕ) (a : Option ℕ) (h : Heap) :
    runLoop env bounds maxEval optimizer m a [] h = (h, []) := rfl

lemma runLoop_cons (env : DriverEnv) (bounds : List (PyNum × PyNum)) (maxEval : ℕ)
    (optimizer : Optimizer) (m : ℕ) (a : Option ℕ) (i : ℕ) (is : List ℕ) (h : Heap) :
    runLoop env bounds maxEval optimizer m a (i :: is) h =
      ((runLoop env bounds maxEval optimizer m a is
          (runOne env bounds maxEval optimizer m a h i).1).1,
       (runOne env bounds maxEval optimizer m a h i).2 ::
         (runLoop env bounds maxEval optimizer m a is
           (runOne env bounds maxEval optimizer m a h i).1).2) := rfl

lemma runLoop_spec (env : DriverEnv) (bounds : List (PyNum × PyNum)) (maxEval : ℕ)
    (optimizer : Optimizer) (m : ℕ) (a : Option ℕ) (is : List ℕ) :
    ∀ (h : Heap), m < h.models.length → (∀ ar ∈ a, ar < h.acqs.length) →
      (runLoop env bounds maxEval optimizer m a is h).2.length = is.length ∧
      (∀ r, r < h.models.length →
        (runLoop env bounds maxEval optimizer m a is h).1.getModel r = h.getModel r) ∧
      (∀ r, r < h.acqs.length →
        (runLoop env bounds maxEval optimizer m a is h).1.getAcq r = h.getAcq r) ∧
      (∀ c ∈ (runLoop env bounds maxEval optimizer m a is h).2,
        c.run ∈ is ∧
        c.samplerSize = 2 * (bounds.length + 1) ∧
        c.nEvals = (env.objf (env.sampler (2 * (bounds.length + 1)) bounds c.run)).length ∧
        c.budget = (maxEval : ℤ) - 2 * (bounds.length + 1) ∧
        c.modelArg = (h.getModel m).update
          (env.sampler (2 * (bounds.length + 1)) bounds c.run)
          (env.objf (env.sampler (2 * (bounds.length + 1)) bounds c.run)) ∧
        c.acqArg = (if optimizer = .surrogate_optimization ∨ optimizer = .dycors then
          a.map fun ar => h.getAcq ar else none)) := by
  induction is with
  | nil =>
    intro h hm ha
    refine ⟨rfl, fun r _ => rfl, fun r _ => rfl, ?_⟩
    intro c hc
    cases hc
  | cons i is ih =>
    intro h hm ha
    obtain ⟨hp1, hp2, hp3, hp4⟩ := runOne_preserves env bounds maxEval optimizer m a h i
    have hm' : m < (runOne env bounds maxEval optimizer m a h i).1.models.length :=
      lt_of_lt_of_le hm hp3
    have ha' : ∀ ar ∈ a, ar < (runOne env bounds maxEval optimizer m a h i).1.acqs.length :=
      fun ar har => lt_of_lt_of_le (ha ar har) hp4
    obtain ⟨ih1, ih2, ih3, ih4⟩ := ih _ hm' ha'
    refine ⟨?_, ?_, ?_, ?_⟩
    · rw [runLoop_cons]
      simpa using ih1
    · intro r hr
      rw [runLoop_cons]
      exact (ih2 r (lt_of_lt_of_le hr hp3)).trans (hp1 r hr)
    · intro r hr
      rw [runLoop_cons]
      exact (ih3 r (lt_of_lt_of_le hr hp4)).trans (hp2 r hr)
    · intro c hc
      rw [runLoop_cons] at hc
      rcases List.mem_cons.mp hc with rfl | hc'
      · obtain ⟨hf1, hf2, hf3, hf4⟩ := runOne_call_fields env bounds maxEval optimizer m a h i
        rw [hf1]
        exact ⟨List.mem_cons_self _ _, hf2, hf3, hf4,
          runOne_modelArg env bounds maxEval optimizer m a h i hm,
          runOne_acqArg env bounds maxEval optimizer m a h i ha⟩
      · obtain ⟨hr1, hr2, hr3, hr4, hr5, hr6⟩ := ih4 c hc'
        refine ⟨List.mem_cons_of_mem _ hr1, hr2, hr3, hr4, ?_, ?_⟩
        · rw [hr5, hp1 m hm]
        · rw [hr6]
          rcases a with _ | ar
          · rfl
          · simp only [Option.map_some']
            rw [hp2 ar (ha ar rfl)]

lemma Heap.allocModel_snd (h : Heap) (v : ModelObj) :
    (h.allocModel v).2 = h.models.length := rfl

lemma Heap.allocAcq_snd (h : Heap) (v : AcqObj) :
    (h.allocAcq v).2 = h.acqs.length := rfl

lemma runOptimizer_spec (env : DriverEnv) (h0 : Heap) (modelRef : ℕ)
    (acqRef : Option ℕ) (optimizer : Optimizer) (maxEval nRuns : ℕ)
    (bounds : List (PyNum × PyNum))
    (hmr : modelRef < h0.models.length)
    (har : ∀ ar ∈ acqRef, ar < h0.acqs.length)
    (hF : Heap) (calls : List RunCall)
    (hok : runOptimizer env h0 modelRef acqRef optimizer maxEval nRuns bounds =
      .ok (hF, calls)) :
    calls.length = nRuns ∧
    hF.getModel modelRef = h0.getModel modelRef ∧
    (∀ ar ∈ acqRef, hF.getAcq ar = h0.getAcq ar) ∧
    (∀ c ∈ calls,
      c.run < nRuns ∧
      c.samplerSize = 2 * (bounds.length + 1) ∧
      c.nEvals = (env.objf (env.sampler (2 * (bounds.length + 1)) bounds c.run)).length ∧
      c.budget = (maxEval : ℤ) - 2 * (bounds.length + 1) ∧
      c.modelArg = (configureModel bounds (h0.getModel modelRef)).update
        (env.sampler (2 * (bounds.length + 1)) bounds c.run)
        (env.objf (env.sampler (2 * (bounds.length + 1)) bounds c.run)) ∧
      c.acqArg =
        (if optimizer = .surrogate_optimization ∨ optimizer = .dycors then
          acqRef.map fun ar => configureAcq maxEval bounds.length (h0.getAcq ar)
        else none)) := by
  by_cases hlen : bounds.length ≠ env.domLen
  · rw [runOptimizer, if_pos hlen] at hok
    cases hok
  · rw [runOptimizer, if_neg hlen] at hok
    have hfresh : ((h0.allocModel (h0.getModel modelRef)).1.getModel
        (h0.allocModel (h0.getModel modelRef)).2) = h0.getModel modelRef :=
      Heap.getModel_allocModel_fresh _ _
    rcases acqRef with _ | ar0
    · dsimp only at hok
      rw [hfresh] at hok
      obtain ⟨hFeq, hceq⟩ := Prod.mk.injEq _ _ _ _ ▸ (Except.ok.inj hok).symm
      have hm2 : (h0.allocModel (h0.getModel modelRef)).2 <
          ((h0.allocModel (h0.getModel modelRef)).1.setModel
            (h0.allocModel (h0.getModel modelRef)).2
            (configureModel bounds (h0.getModel modelRef))).models.length := by
        rw [Heap.models_length_setModel, Heap.models_length_allocModel,
          Heap.allocModel_snd]
        omega
      obtain ⟨l1, l2, l3, l4⟩ := runLoop_spec env bounds maxEval optimizer
        (h0.allocModel (h0.getModel modelRef)).2 none (List.range nRuns) _ hm2
        (by intro ar har'; cases har')
      have hgm : ((h0.allocModel (h0.getModel modelRef)).1.setModel
          (h0.allocModel (h0.getModel modelRef)).2
          (configureModel bounds (h0.getModel modelRef))).getModel
            (h0.allocModel (h0.getModel modelRef)).2 =
          configureModel bounds (h0.getModel modelRef) := by
        apply Heap.getModel_setModel_self
        rw [Heap.models_length_allocModel, Heap.allocModel_snd]
        omega
      have hcaller : ((h0.allocModel (h0.getModel modelRef)).1.setModel
          (h0.allocModel (h0.getModel modelRef)).2
          (configureModel bounds (h0.getModel modelRef))).getModel modelRef =
          h0.getModel modelRef := by
        rw [Heap.getModel_setModel_other _ _ _ _ (by rw [Heap.allocModel_snd]; omega),
          Heap.getModel_allocModel_old _ _ _ hmr]
      refine ⟨?_, ?_, ?_, ?_⟩
      · rw [← hceq] at l1
        rw [l1, List.length_range]
      · rw [hFeq]
        refine (l2 modelRef ?_).trans hcaller
        rw [Heap.models_length_setModel, Heap.models_length_allocModel]
        omega
      · intro ar har'
        cases har'
      · intro c hc
        rw [← hceq] at l4
        obtain ⟨hr1, hr2, hr3, hr4, hr5, hr6⟩ := l4 c hc
        refine ⟨List.mem_range.mp hr1, hr2, hr3, hr4, ?_, ?_⟩
        · rw [hr5, hgm]
        · rw [hr6]
          by_cases hco : optimizer = Optimizer.surrogate_optimization ∨
            optimizer = Optimizer.dycors
          · rw [if_pos hco, if_pos hco]
            rfl
          · rw [if_neg hco, if_neg hco]
    · dsimp only at hok
      rw [hfresh] at hok
      have har0 : ar0 < h0.acqs.length := har ar0 rfl
      set h2 := (h0.allocModel (h0.getModel modelRef)).1.setModel
        (h0.allocModel (h0.getModel modelRef)).2
        (configureModel bounds (h0.getModel modelRef)) with hh2
      have hacq2 : h2.getAcq ar0 = h0.getAcq ar0 := rfl
      rw [Heap.getAcq_allocAcq_fresh, hacq2] at hok
      set h3 := (h2.allocAcq (h0.getAcq ar0)).1 with hh3
      set ai := (h2.allocAcq (h0.getAcq ar0)).2 with hai
      set H4 := h3.setAcq ai (configureAcq maxEval bounds.length (h0.getAcq ar0)) with hH4
      obtain ⟨hFeq, hceq⟩ := Prod.mk.injEq _ _ _ _ ▸ (Except.ok.inj hok).symm
      have ha2len : h2.acqs.length = h0.acqs.length := rfl
      have haiv : ai = h0.acqs.length := by
        rw [hai, Heap.allocAcq_snd, ha2len]
      have h3mlen : h3.models.length = h2.models.length := by
        rw [hh3, Heap.models_length_allocAcq]
      have h3alen : h3.acqs.length = h0.acqs.length + 1 := by
        rw [hh3, Heap.acqs_length_allocAcq, ha2len]
      have h2mlen : h2.models.length = h0.models.length + 1 := by
        rw [hh2, Heap.models_length_setModel, Heap.models_length_allocModel]
      have hm4 : (h0.allocModel (h0.getModel modelRef)).2 < H4.models.length := by
        rw [hH4, Heap.models_length_setAcq, h3mlen, h2mlen, Heap.allocModel_snd]
        omega
      have hgm4 : H4.getModel (h0.allocModel (h0.getModel modelRef)).2 =
          configureModel bounds (h0.getModel modelRef) := by
        rw [hH4, Heap.getModel_setAcq, hh3, Heap.getModel_allocAcq, hh2]
        apply Heap.getModel_setModel_self
        rw [Heap.models_length_allocModel, Heap.allocModel_snd]
        omega
      have hcaller : H4.getModel modelRef = h0.getModel modelRef := by
        rw [hH4, Heap.getModel_setAcq, hh3, Heap.getModel_allocAcq, hh2,
          Heap.getModel_setModel_other _ _ _ _ (by rw [Heap.allocModel_snd]; omega),
          Heap.getModel_allocModel_old _ _ _ hmr]
      have hcallerA : ∀ r, r < h0.acqs.length → H4.getAcq r = h0.getAcq r := by
        intro r hr
        rw [hH4, Heap.getAcq_setAcq_other _ _ _ _ (by rw [haiv]; omega), hh3]
        rw [Heap.getAcq_allocAcq_old]
        · rfl
        · rw [ha2len]
          exact hr
      have hacq4 : H4.getAcq ai = configureAcq maxEval bounds.length (h0.getAcq ar0) := by
        rw [hH4]
        apply Heap.getAcq_setAcq_self
        rw [h3alen, haiv]
        omega
      obtain ⟨l1, l2, l3, l4⟩ := runLoop_spec env bounds maxEval optimizer
        (h0.allocModel (h0.getModel modelRef)).2 (some ai) (List.range nRuns) H4 hm4
        (by
          intro ar har'
          injection har' with h'
          subst h'
          rw [hH4, Heap.acqs_length_setAcq, h3alen, haiv]
          omega)
      refine ⟨?_, ?_, ?_, ?_⟩
      · rw [← hceq] at l1
        rw [l1, List.length_range]
      · rw [hFeq]
        refine (l2 modelRef ?_).trans hcaller
        rw [hH4, Heap.models_length_setAcq, h3mlen, h2mlen]
        omega
      · intro ar har'
        injection har' with h'
        subst h'
        rw [hFeq]
        refine (l3 ar0 ?_).trans (hcallerA ar0 har0)
        rw [hH4, Heap.acqs_length_setAcq, h3alen]
        omega
      · intro c hc
        rw [← hceq] at l4
        obtain ⟨hr1, hr2, hr3, hr4, hr5, hr6⟩ := l4 c hc
        refine ⟨List.mem_range.mp hr1, hr2, hr3, hr4, ?_, ?_⟩
        · rw [hr5, hgm4]
        · rw [hr6]
          by_cases hco : optimizer = Optimizer.surrogate_optimization ∨
            optimizer = Optimizer.dycors
          · rw [if_pos hco, if_pos hco]
            simp only [Option.map_some']
            rw [hacq4]
          · rw [if_neg hco, if_neg hco]

section
attribute [local semireducible] Rat.add Rat.mul Rat.sub Rat.inv Rat.ofScientific

/-- C6: for every run, run_optimizer requests an initial space-filling design
of exactly 2 * (dimension + 1) points over the bounds, evaluates the
objective on all of them, and invokes the inner optimizer with a remaining
budget of exactly maxEval - 2 * (dimension + 1) evaluations. -/
theorem runOptimizer_initial_design_and_budget (env : DriverEnv) (h0 : Heap)
    (modelRef : ℕ) (acqRef : Option ℕ) (optimizer : Optimizer)
    (maxEval nRuns : ℕ) (bounds : List (PyNum × PyNum))
    (hmr : modelRef < h0.models.length)
    (har : ∀ ar ∈ acqRef, ar < h0.acqs.length)
    (hs : ∀ k b s, (env.sampler k b s).length = k)
    (hf : ∀ xs, (env.objf xs).length = xs.length)
    (hF : Heap) (calls : List RunCall)
    (hok : runOptimizer env h0 modelRef acqRef optimizer maxEval nRuns bounds =
      .ok (hF, calls)) :
    calls.length = nRuns ∧
    ∀ c ∈ calls,
      c.samplerSize = 2 * (bounds.length + 1) ∧
      c.nEvals = 2 * (bounds.length + 1) ∧
      c.budget = (maxEval : ℤ) - 2 * (bounds.length + 1) := by
  obtain ⟨l1, -, -, l4⟩ := runOptimizer_spec env h0 modelRef acqRef optimizer
    maxEval nRuns bounds hmr har hF calls hok
  refine ⟨l1, ?_⟩
  intro c hc
  obtain ⟨-, h2, h3, h4, -, -⟩ := l4 c hc
  refine ⟨h2, ?_, h4⟩
  rw [h3, hf, hs]

/-- Witness for C6: one-dimensional objective, maxEval = 10, one run — the
sampler is asked for 4 points, all 4 are evaluated, and the optimizer gets a
budget of 6. -/
theorem runOptimizer_initial_design_and_budget_witness :
    (runOptimizer ⟨fun xs => xs.map fun _ => 0, 1,
        fun k _ _ => List.replicate k [0], fun _ m => m⟩
      ⟨[⟨.rbfModel, [], [], []⟩], []⟩ 0 none .cptv 10 1 [(.int 0, .int 1)] =
      .ok (⟨[⟨.rbfModel, [], [], []⟩, ⟨.rbfModel, [0], [], []⟩,
              ⟨.rbfModel, [0], [[0],[0],[0],[0]], [0,0,0,0]⟩], []⟩,
           [⟨0, 4, 4, 6, ⟨.rbfModel, [0], [[0],[0],[0],[0]], [0,0,0,0]⟩, none⟩])) ∧
    (([⟨0, 4, 4, 6, ⟨.rbfModel, [0], [[0],[0],[0],[0]], [0,0,0,0]⟩, none⟩] :
        List RunCall).length = 1 ∧
     ∀ c ∈ ([⟨0, 4, 4, 6, ⟨.rbfModel, [0], [[0],[0],[0],[0]], [0,0,0,0]⟩, none⟩] :
        List RunCall),
       c.samplerSize = 2 * (([(.int 0, .int 1)] : List (PyNum × PyNum)).length + 1) ∧
       c.nEvals = 2 * (([(.int 0, .int 1)] : List (PyNum × PyNum)).length + 1) ∧
       c.budget = ((10 : ℕ) : ℤ) - 2 * (([(.int 0, .int 1)] : List (PyNum × PyNum)).length + 1)) :=
  (fun h => ⟨h,
    runOptimizer_initial_design_and_budget _ _ 0 none .cptv 10 1 _
      (by decide) (by intro ar har'; cases har')
      (fun k b s => List.length_replicate k [0]) (fun xs => List.length_map xs _)
      _ _ h⟩) rfl

/-- C9: independent runs share no mutable state — after run_optimizer the
caller's configured surrogate and acquisition objects are unchanged, and the
surrogate passed to the inner optimizer in each run is fully determined by
the caller's configuration and the run index (a fresh deep copy per run),
whatever mutations optMut the inner optimizer performs on it. -/
theorem runOptimizer_run_independence (env : DriverEnv) (h0 : Heap)
    (modelRef : ℕ) (acqRef : Option ℕ) (optimizer : Optimizer)
    (maxEval nRuns : ℕ) (bounds : List (PyNum × PyNum))
    (hmr : modelRef < h0.models.length)
    (har : ∀ ar ∈ acqRef, ar < h0.acqs.length)
    (hF : Heap) (calls : List RunCall)
    (hok : runOptimizer env h0 modelRef acqRef optimizer maxEval nRuns bounds =
      .ok (hF, calls)) :
    hF.getModel modelRef = h0.getModel modelRef ∧
    (∀ ar ∈ acqRef, hF.getAcq ar = h0.getAcq ar) ∧
    ∀ c ∈ calls,
      c.modelArg = (configureModel bounds (h0.getModel modelRef)).update
        (env.sampler (2 * (bounds.length + 1)) bounds c.run)
        (env.objf (env.sampler (2 * (bounds.length + 1)) bounds c.run)) := by
  obtain ⟨-, l2, l3, l4⟩ := runOptimizer_spec env h0 modelRef acqRef optimizer
    maxEval nRuns bounds hmr har hF calls hok
  exact ⟨l2, l3, fun c hc => ((l4 c hc).2.2.2.2.1)⟩

/-- Witness for C9: GP configuration with an acquisition object — the
caller's model and acquisition are untouched and the run's surrogate is the
deep-copied configuration updated with the initial design. -/
theorem runOptimizer_run_independence_witness :
    (runOptimizer ⟨fun xs => xs.map fun _ => 0, 1,
        fun k _ _ => List.replicate k [0], fun _ m => m⟩
      ⟨[⟨.gaussianProcess, [], [], []⟩], [⟨true, 0, true, 0⟩]⟩ 0 (some 0)
        .bayesian_optimization 10 1 [(.int 0, .int 1)] =
      .ok (⟨[⟨.gaussianProcess, [], [], []⟩, ⟨.gaussianProcess, [], [], []⟩,
              ⟨.gaussianProcess, [], [[0],[0],[0],[0]], [0,0,0,0]⟩],
             [⟨true, 0, true, 0⟩, ⟨true, 10, true, 100⟩]⟩,
           [⟨0, 4, 4, 6, ⟨.gaussianProcess, [], [[0],[0],[0],[0]], [0,0,0,0]⟩, none⟩])) ∧
    ((⟨[⟨.gaussianProcess, [], [], []⟩, ⟨.gaussianProcess, [], [], []⟩,
          ⟨.gaussianProcess, [], [[0],[0],[0],[0]], [0,0,0,0]⟩],
         [⟨true, 0, true, 0⟩, ⟨true, 10, true, 100⟩]⟩ : Heap).getModel 0 =
       (⟨[⟨.gaussianProcess, [], [], []⟩], [⟨true, 0, true, 0⟩]⟩ : Heap).getModel 0 ∧
     (∀ ar ∈ (some 0 : Option ℕ),
       (⟨[⟨.gaussianProcess, [], [], []⟩, ⟨.gaussianProcess, [], [], []⟩,
            ⟨.gaussianProcess, [], [[0],[0],[0],[0]], [0,0,0,0]⟩],
           [⟨true, 0, true, 0⟩, ⟨true, 10, true, 100⟩]⟩ : Heap).getAcq ar =
         (⟨[⟨.gaussianProcess, [], [], []⟩], [⟨true, 0, true, 0⟩]⟩ : Heap).getAcq ar) ∧
     ∀ c ∈ ([⟨0, 4, 4, 6, ⟨.gaussianProcess, [], [[0],[0],[0],[0]], [0,0,0,0]⟩, none⟩] :
        List RunCall),
       c.modelArg = (configureModel [(.int 0, .int 1)]
           ((⟨[⟨.gaussianProcess, [], [], []⟩], [⟨true, 0, true, 0⟩]⟩ : Heap).getModel 0)).update
         (List.replicate (2 * (([(.int 0, .int 1)] : List (PyNum × PyNum)).length + 1)) [0])
         ((List.replicate (2 * (([(.int 0, .int 1)] : List (PyNum × PyNum)).length + 1))
             ([0] : List ℚ)).map fun _ => 0)) :=
  (fun h => ⟨h,
    runOptimizer_run_independence _ _ 0 (some 0) .bayesian_optimization 10 1 _
      (by decide) (by intro ar har'; injection har' with h'; subst h'; decide)
      _ _ h⟩) rfl

/-- C10: run_optimizer forwards the per-run acquisition object to the inner
optimizer only when the optimizer is surrogate_optimization or dycors; for
every other optimizer variant (multistart_msrs, cptv, cptvl,
bayesian_optimization) no acquisition is passed — in particular the GP
algorithm's configured MaximizeEI instance is never forwarded, since its
optimizer is bayesian_optimization. -/
theorem runOptimizer_acquisition_forwarding (env : DriverEnv) (h0 : Heap)
    (modelRef : ℕ) (acqRef : Option ℕ) (optimizer : Optimizer)
    (maxEval nRuns : ℕ) (bounds : List (PyNum × PyNum))
    (hmr : modelRef < h0.models.length)
    (har : ∀ ar ∈ acqRef, ar < h0.acqs.length)
    (hF : Heap) (calls : List RunCall)
    (hok : runOptimizer env h0 modelRef acqRef optimizer maxEval nRuns bounds =
      .ok (hF, calls)) :
    (∀ c ∈ calls,
      c.acqArg = (if optimizer = .surrogate_optimization ∨ optimizer = .dycors then
        acqRef.map fun ar => configureAcq maxEval bounds.length (h0.getAcq ar)
      else none)) ∧
    (∀ e ∈ algorithms, e.1 = "GP" →
      e.2.optimizer = .bayesian_optimization ∧
      e.2.acquisition = some .maximizeEI ∧
      e.2.optimizer ≠ .surrogate_optimization ∧ e.2.optimizer ≠ .dycors) := by
  obtain ⟨-, -, -, l4⟩ := runOptimizer_spec env h0 modelRef acqRef optimizer
    maxEval nRuns bounds hmr har hF calls hok
  refine ⟨fun c hc => (l4 c hc).2.2.2.2.2, by decide⟩

/-- Witness for C10: the GP scenario — the configured acquisition exists but
the bayesian_optimization run call carries none. -/
theorem runOptimizer_acquisition_forwarding_witness :
    (runOptimizer ⟨fun xs => xs.map fun _ => 0, 1,
        fun k _ _ => List.replicate k [0], fun _ m => m⟩
      ⟨[⟨.gaussianProcess, [], [], []⟩], [⟨true, 0, true, 0⟩]⟩ 0 (some 0)
        .bayesian_optimization 10 1 [(.int 0, .int 1)] =
      .ok (⟨[⟨.gaussianProcess, [], [], []⟩, ⟨.gaussianProcess, [], [], []⟩,
              ⟨.gaussianProcess, [], [[0],[0],[0],[0]], [0,0,0,0]⟩],
             [⟨true, 0, true, 0⟩, ⟨true, 10, true, 100⟩]⟩,
           [⟨0, 4, 4, 6, ⟨.gaussianProcess, [], [[0],[0],[0],[0]], [0,0,0,0]⟩, none⟩])) ∧
    ((∀ c ∈ ([⟨0, 4, 4, 6, ⟨.gaussianProcess, [], [[0],[0],[0],[0]], [0,0,0,0]⟩, none⟩] :
        List RunCall),
       c.acqArg = (if (Optimizer.bayesian_optimization = .surrogate_optimization ∨
           Optimizer.bayesian_optimization = .dycors) then
         (some 0 : Option ℕ).map fun ar => configureAcq 10
           ([(.int 0, .int 1)] : List (PyNum × PyNum)).length
           ((⟨[⟨.gaussianProcess, [], [], []⟩], [⟨true, 0, true, 0⟩]⟩ : Heap).getAcq ar)
       else none)) ∧
     (∀ e ∈ algorithms, e.1 = "GP" →
       e.2.optimizer = .bayesian_optimization ∧
       e.2.acquisition = some .maximizeEI ∧
       e.2.optimizer ≠ .surrogate_optimization ∧ e.2.optimizer ≠ .dycors)) :=
  (fun h => ⟨h,
    runOptimizer_acquisition_forwarding _ _ 0 (some 0) .bayesian_optimization 10 1 _
      (by decide) (by intro ar har'; injection har' with h'; subst h'; decide)
      _ _ h⟩) rfl

/-- C7 counterexample: with an RBF surrogate and bounds [2.0, 5.0] — both
whole numbers but Python floats — the dimension is absent from the derived
integrality index set and from the iindex of the surrogate used in the run,
refuting "integral if and only if both bounds are whole numbers". -/
theorem iindex_whole_float_counterexample :
    PyNum.isWhole (PyNum.float 2) = true ∧
    PyNum.isWhole (PyNum.float 5) = true ∧
    derivedIindex [(PyNum.float 2, PyNum.float 5)] = [] ∧
    ((runOptimizer ⟨fun xs => xs.map fun _ => 0, 1,
          fun k _ _ => List.replicate k [0], fun _ m => m⟩
        ⟨[⟨.rbfModel, [], [], []⟩], []⟩ 0 none .cptv 10 1
        [(PyNum.float 2, PyNum.float 5)]).toOption.map
          fun r => r.2.map fun c => c.modelArg.iindex) = some [[]] :=
  ⟨by decide, by decide, rfl, rfl⟩

/-- C7 amended: run_optimizer derives the integrality index set from the
bounds for RBF surrogates — never set independently — and a dimension is
included iff both its bounds are int-typed Python values
(isinstance(-, int)); whole-valued float bounds do not make a dimension
integral. -/
theorem runOptimizer_iindex_characterization (env : DriverEnv) (h0 : Heap)
    (modelRef : ℕ) (acqRef : Option ℕ) (optimizer : Optimizer)
    (maxEval nRuns : ℕ) (bounds : List (PyNum × PyNum))
    (hmr : modelRef < h0.models.length)
    (har : ∀ ar ∈ acqRef, ar < h0.acqs.length)
    (hrbf : (h0.getModel modelRef).kind = .rbfModel)
    (hF : Heap) (calls : List RunCall)
    (hok : runOptimizer env h0 modelRef acqRef optimizer maxEval nRuns bounds =
      .ok (hF, calls)) :
    (∀ c ∈ calls, c.modelArg.iindex = derivedIindex bounds) ∧
    (∀ i, i ∈ derivedIindex bounds ↔
      i < bounds.length ∧ (bounds.getD i default).1.isInt = true ∧
        (bounds.getD i default).2.isInt = true) := by
  obtain ⟨-, -, -, l4⟩ := runOptimizer_spec env h0 modelRef acqRef optimizer
    maxEval nRuns bounds hmr har hF calls hok
  constructor
  · intro c hc
    rw [(l4 c hc).2.2.2.2.1]
    show (configureModel bounds (h0.getModel modelRef)).iindex = _
    rw [configureModel, if_pos hrbf]
  · intro i
    rw [derivedIindex, List.mem_filter, List.mem_range, Bool.and_eq_true]

/-- Witness for C7 (amended): int bounds on the first dimension and float
bounds on the second give exactly iindex = [0]. -/
theorem runOptimizer_iindex_characterization_witness :
    (runOptimizer ⟨fun xs => xs.map fun _ => 0, 2,
        fun k _ _ => List.replicate k [0, 0], fun _ m => m⟩
      ⟨[⟨.rbfModel, [], [], []⟩], []⟩ 0 none .cptv 20 1
      [(.int 0, .int 1), (PyNum.float 0, PyNum.float 1)] =
      .ok (⟨[⟨.rbfModel, [], [], []⟩, ⟨.rbfModel, [0], [], []⟩,
              ⟨.rbfModel, [0], [[0,0],[0,0],[0,0],[0,0],[0,0],[0,0]],
                [0,0,0,0,0,0]⟩], []⟩,
           [⟨0, 6, 6, 14, ⟨.rbfModel, [0], [[0,0],[0,0],[0,0],[0,0],[0,0],[0,0]],
              [0,0,0,0,0,0]⟩, none⟩])) ∧
    ((∀ c ∈ ([⟨0, 6, 6, 14, ⟨.rbfModel, [0], [[0,0],[0,0],[0,0],[0,0],[0,0],[0,0]],
          [0,0,0,0,0,0]⟩, none⟩] : List RunCall),
        c.modelArg.iindex =
          derivedIindex [(.int 0, .int 1), (PyNum.float 0, PyNum.float 1)]) ∧
     (∀ i, i ∈ derivedIindex [(.int 0, .int 1), (PyNum.float 0, PyNum.float 1)] ↔
       i < ([(.int 0, .int 1), (PyNum.float 0, PyNum.float 1)] :
          List (PyNum × PyNum)).length ∧
       (([(.int 0, .int 1), (PyNum.float 0, PyNum.float 1)] :
          List (PyNum × PyNum)).getD i default).1.isInt = true ∧
       (([(.int 0, .int 1), (PyNum.float 0, PyNum.float 1)] :
          List (PyNum × PyNum)).getD i default).2.isInt = true)) :=
  (fun h => ⟨h,
    runOptimizer_iindex_characterization _ _ 0 none .cptv 20 1 _
      (by decide) (by intro ar har'; cases har') (by exact rfl) _ _ h⟩) rfl

/-- C8 counterexample: bounds [[5, 3]] with low ≥ high are not rejected at
initialization — the run completes and the objective is evaluated on the
full initial design, refuting the claim that such bounds fail before any
objective evaluation. -/
theorem low_ge_high_bounds_not_rejected :
    (PyNum.int 3).val ≤ (PyNum.int 5).val ∧
    ((runOptimizer ⟨fun xs => xs.map fun _ => 0, 1,
          fun k _ _ => List.replicate k [0], fun _ m => m⟩
        ⟨[⟨.rbfModel, [], [], []⟩], []⟩ 0 none .cptv 10 1
        [(.int 5, .int 3)]).toOption.map fun r => r.2.map fun c => c.nEvals) =
      some [4] :=
  ⟨by norm_num [PyNum.val], rfl⟩

/-- C8 amended: run_optimizer fails at initialization — before any objective
evaluation and with no retry — precisely when the number of bound pairs
differs from the objective's declared domain; low ≥ high within a pair is
not checked. -/
theorem runOptimizer_dimension_mismatch_fatal (env : DriverEnv) (h0 : Heap)
    (modelRef : ℕ) (acqRef : Option ℕ) (optimizer : Optimizer)
    (maxEval nRuns : ℕ) (bounds : List (PyNum × PyNum))
    (hmm : bounds.length ≠ env.domLen) :
    runOptimizer env h0 modelRef acqRef optimizer maxEval nRuns bounds =
      .error "assertion failed: len(bounds) == len(objf.domain())" := by
  rw [runOptimizer, if_pos hmm]

/-- Witness for C8 (amended): two bound pairs against a one-dimensional
objective fail the initialization assert. -/
theorem runOptimizer_dimension_mismatch_fatal_witness :
    (([(.int 0, .int 1), (.int 0, .int 1)] : List (PyNum × PyNum)).length ≠
      (⟨fun xs => xs.map fun _ => 0, 1, fun k _ _ => List.replicate k [0],
        fun _ m => m⟩ : DriverEnv).domLen) ∧
    runOptimizer ⟨fun xs => xs.map fun _ => 0, 1,
        fun k _ _ => List.replicate k [0], fun _ m => m⟩
      ⟨[⟨.rbfModel, [], [], []⟩], []⟩ 0 none .cptv 10 1
      [(.int 0, .int 1), (.int 0, .int 1)] =
      .error "assertion failed: len(bounds) == len(objf.domain())" :=
  ⟨by decide,
   runOptimizer_dimension_mismatch_fatal _ _ 0 none .cptv 10 1 _ (by decide)⟩

end

end VlseBench
